import Mathlib

/-!
# Verification of the segmented write-ahead log (ThejasNU/wal)

A shallow embedding of the Go sources of the `wal` package:

* `src/read.go` and `src/unnamed/part_000` — the Recovery Reader
  (`ReadAllFromCurrent`, `ReadAllFromIndex`, `readAllEntriesFromFile`,
  `getLastSequenceNumber`, `getLastEntryInCurrentSegment`);
* `src/unnamed/part_002` — `GetWAL` and `Flush`;
* `src/unnamed/part_003` — the Append Engine (`writeEntry`,
  `changeLogSegmentIfNeeded`, `changeLogSegment`, `deleteOldestSegment`,
  `findOldestSegmentFile`, `writeEntryToBuffer`);
* `src/utils/helpers.go` — `FindLastSegmentId`, `isValidCRC`,
  `UnmarshalAndVerifyEntry`.

Bytes are modeled as `Nat` (a Go `byte` conversion appears explicitly as
`% 256`), files as `List Nat`, a segment directory as a
`List (Nat × List Nat)` of (numeric suffix, contents) pairs.  Go's
multiple-return style `(value, error)` is kept: fallible operations return
a product whose last component is an `Option WalErr`.  Loops that walk a
file are written with an explicit fuel argument equal to the file length
plus one; since every iteration of the corresponding Go loop consumes at
least one byte of the file, the fuel is never exhausted (the `outOfFuel`
error is unreachable, which the lemmas below make precise on the inputs
they cover).
-/

namespace Wal

/-- Error outcomes of the modeled operations.  Go returns distinct `error`
values; the claims only need to distinguish the corruption error of
`UnmarshalAndVerifyEntry` from I/O-shaped failures, so each failure site
gets one constructor.  `codecPanic` and `sizePanic` model Go panics
(`MustUnmarshal` on undecodable bytes, `make([]byte, n)` with negative
`n`). -/
inductive WalErr where
  | truncated         -- io.EOF / io.ErrUnexpectedEOF surfaced from a partial read
  | crcMismatch       -- "CRC mismatch: Data in the entry maybe be corrupted"
  | invalidBinaryRead -- binary.Read given a non-pointer destination
  | codecPanic        -- MustUnmarshal panic
  | sizePanic         -- make with a negative int32 length panics
  | statFail          -- injected: (*os.File).Stat fails
  | flushFail         -- injected: Flush fails
  | bufWriteFail      -- injected: writing the frame to the buffer fails
  | outOfFuel         -- model artifact: loop fuel exhausted (unreachable)
  deriving DecidableEq, Repr

/-- `types.WAL_Entry`, the protobuf record: `LogSequenceNumber uint64`,
`Data []byte`, `CRC uint32`, `IsCheckpoint *bool` (a nil-able pointer,
hence `Option Bool`). -/
structure WAL_Entry where
  logSequenceNumber : Nat
  data : List Nat
  crc : Nat
  isCheckpoint : Option Bool
  deriving DecidableEq, Repr

/-- Little-endian bytes of a 32-bit value (`binary.LittleEndian`). -/
def u32le (n : Nat) : List Nat :=
  [n % 256, n / 256 % 256, n / 2 ^ 16 % 256, n / 2 ^ 24 % 256]

/-- Little-endian bytes of a 64-bit value. -/
def u64le (n : Nat) : List Nat :=
  [n % 256, n / 256 % 256, n / 2 ^ 16 % 256, n / 2 ^ 24 % 256,
   n / 2 ^ 32 % 256, n / 2 ^ 40 % 256, n / 2 ^ 48 % 256, n / 2 ^ 56 % 256]

/-- Decode a little-endian byte list back into a number. -/
def leDecode : List Nat → Nat
  | [] => 0
  | b :: rest => b + 256 * leDecode rest

/-- One shift-xor round of the reflected CRC-32 computation
(`hash/crc32`, polynomial `0xEDB88320`). -/
def crc32Round (c : Nat) : Nat :=
  if c % 2 = 1 then (c / 2) ^^^ 0xEDB88320 else c / 2

/-- Iterate `crc32Round`. -/
def crc32Bits : Nat → Nat → Nat
  | 0, c => c
  | k + 1, c => crc32Bits k (crc32Round c)

/-- Fold one input byte into the running CRC-32 state. -/
def crc32Update (c b : Nat) : Nat := crc32Bits 8 (c ^^^ (b % 256))

/-- Fold a byte list into the running CRC-32 state. -/
def crc32Fold : List Nat → Nat → Nat
  | [], c => c
  | b :: rest, c => crc32Fold rest (crc32Update c b)

/-- `crc32.ChecksumIEEE`: reflected CRC-32 with initial state and final
xor mask `0xFFFFFFFF`. -/
def ChecksumIEEE (bs : List Nat) : Nat := crc32Fold bs 0xFFFFFFFF ^^^ 0xFFFFFFFF

/-- `utils.isValidCRC` (src/utils/helpers.go:66): recompute the checksum
over `entry.GetData()` with the low byte of the sequence number appended
(`byte(entry.GetLogSequenceNumber())` is `% 256`) and compare with the
stored `CRC`. -/
def isValidCRC (entry : WAL_Entry) : Bool :=
  ChecksumIEEE (entry.data ++ [entry.logSequenceNumber % 256]) == entry.crc

/-- Modelled from the spec: the entry codec is an external collaborator
(`proto.Marshal` on `types.WAL_Entry`, §1/§6 of the spec), specified only
as a serialize/deserialize pair that round-trips and cannot fail on
well-formed input.  This concrete realization lays the fields out as
8 bytes of sequence number, 4 bytes of CRC, one presence byte for the
optional checkpoint flag, then the payload. -/
def marshalEntry (e : WAL_Entry) : List Nat :=
  u64le e.logSequenceNumber ++ u32le e.crc ++
    [match e.isCheckpoint with | none => 0 | some false => 1 | some true => 2] ++ e.data

/-- Modelled from the spec: inverse of `marshalEntry`.  Like
`proto.Unmarshal`, the empty buffer decodes to the all-default record; a
buffer too short or with an unknown flag byte fails (in Go this would be
a `MustUnmarshal` panic). -/
def unmarshalEntry (bs : List Nat) : Option WAL_Entry :=
  if bs = [] then some ⟨0, [], 0, none⟩
  else if bs.length < 13 then none
  else
    match (bs.drop 12).headD 0 with
    | 0 => some ⟨leDecode (bs.take 8), bs.drop 13, leDecode ((bs.drop 8).take 4), none⟩
    | 1 => some ⟨leDecode (bs.take 8), bs.drop 13, leDecode ((bs.drop 8).take 4), some false⟩
    | 2 => some ⟨leDecode (bs.take 8), bs.drop 13, leDecode ((bs.drop 8).take 4), some true⟩
    | _ => none

/-- `utils.UnmarshalAndVerifyEntry` (src/utils/helpers.go:53): decode the
bytes (`MustUnmarshal`, panicking if undecodable) and return the entry
only when `isValidCRC` accepts it; a mismatch is the corruption error. -/
def UnmarshalAndVerifyEntry (data : List Nat) : Option WAL_Entry × Option WalErr :=
  match unmarshalEntry data with
  | none => (none, some .codecPanic)
  | some entry =>
    if isValidCRC entry then (some entry, none) else (none, some .crcMismatch)

/-- The frame written for one entry by `writeEntryToBuffer`
(src/unnamed/part_003:381): a 4-byte little-endian `int32` length
(`int32(len(serializedEntry))`, i.e. the length modulo `2^32` in two's
complement bytes) followed by the serialized entry. -/
def frameBytes (e : WAL_Entry) : List Nat :=
  u32le ((marshalEntry e).length % 2 ^ 32) ++ marshalEntry e

/-- Concatenated frames of a list of entries: the byte contents of a
segment file holding exactly those records. -/
def framesBytes : List WAL_Entry → List Nat
  | [] => []
  | e :: rest => frameBytes e ++ framesBytes rest

/-! ## Recovery Reader: full scan (src/unnamed/part_000) -/

/-- Loop body of `readAllEntriesFromFile` (src/unnamed/part_000:81-117).
`rem` is the unread rest of the file.  Each iteration reads a 4-byte
little-endian `int32` length with `binary.Read(file, binary.LittleEndian,
&size)` (a clean EOF before any length byte ends the scan successfully;
1-3 remaining bytes are `io.ErrUnexpectedEOF`), allocates `make([]byte,
size)` (panicking if the decoded `int32` is negative), fills it with
`io.ReadFull`, decodes and verifies it, applies the checkpoint reset
(`if entry.IsCheckpoint != nil && entry.GetIsCheckpoint() &&
fromCheckPoint` then `checkPointLSN = entry.GetLogSequenceNumber();
entries = entries[:0]`), and appends the entry.  Any error returns the
entries accumulated so far alongside the error.  The fuel decreases once
per iteration; every iteration consumes at least 4 bytes of `rem`. -/
def readAllLoop (fromCheckPoint : Bool) :
    Nat → List Nat → List WAL_Entry → Nat → List WAL_Entry × Nat × Option WalErr
  | 0, _, entries, checkPointLSN => (entries, checkPointLSN, some .outOfFuel)
  | fuel + 1, rem, entries, checkPointLSN =>
    if rem = [] then (entries, checkPointLSN, none)
    else if rem.length < 4 then (entries, checkPointLSN, some .truncated)
    else
      let size := leDecode (rem.take 4)
      if 2 ^ 31 ≤ size then (entries, checkPointLSN, some .sizePanic)
      else if (rem.drop 4).length < size then (entries, checkPointLSN, some .truncated)
      else
        match UnmarshalAndVerifyEntry ((rem.drop 4).take size) with
        | (_, some e) => (entries, checkPointLSN, some e)
        | (none, none) => (entries, checkPointLSN, some .codecPanic)
        | (some entry, none) =>
          if entry.isCheckpoint = some true ∧ fromCheckPoint then
            readAllLoop fromCheckPoint fuel ((rem.drop 4).drop size) [entry]
              entry.logSequenceNumber
          else
            readAllLoop fromCheckPoint fuel ((rem.drop 4).drop size) (entries ++ [entry])
              checkPointLSN

/-- `readAllEntriesFromFile` (src/unnamed/part_000:81): scan the whole
file from offset 0, returning the accumulated entries, the sequence
number of the last checkpoint seen (0 if none), and the error, if any. -/
def readAllEntriesFromFile (file : List Nat) (fromCheckPoint : Bool) :
    List WAL_Entry × Nat × Option WalErr :=
  readAllLoop fromCheckPoint (file.length + 1) file [] 0

/-- `ReadAllFromCurrent` (src/unnamed/part_000:19): scan the current
segment; with `fromCheckpoint` set, a scan that saw no checkpoint
(`checkPointLSN <= 0`) yields the empty slice. -/
def ReadAllFromCurrent (file : List Nat) (fromCheckpoint : Bool) :
    List WAL_Entry × Option WalErr :=
  match readAllEntriesFromFile file fromCheckpoint with
  | (entries, _, some err) => (entries, some err)
  | (entries, checkPointLSN, none) =>
    if fromCheckpoint ∧ checkPointLSN ≤ 0 then ([], none) else (entries, none)

/-- Most-significant-first decimal digits of `n` (digit values, one per
character of `fmt.Sprintf("%d", n)`); structural fuel recursion so the
kernel can evaluate it. -/
def digitsRevAux : Nat → Nat → List Nat
  | 0, _ => []
  | fuel + 1, n => if n = 0 then [] else n % 10 :: digitsRevAux fuel (n / 10)

/-- Decimal digit list of a segment index, as it appears in the file name
after the fixed `segment-` part. -/
def natDigits (n : Nat) : List Nat :=
  if n = 0 then [0] else (digitsRevAux n n).reverse

/-- Strict lexicographic order on digit lists: the order in which
`filepath.Glob` (which sorts matches lexically) lists names that agree on
the fixed `segment-` part and differ only in the decimal suffix. -/
def lexLt : List Nat → List Nat → Bool
  | [], [] => false
  | [], _ :: _ => true
  | _ :: _, [] => false
  | a :: as, b :: bs => if a < b then true else if b < a then false else lexLt as bs

/-- Insert one (index, contents) pair into a list sorted by file name. -/
def insertByName (p : Nat × List Nat) :
    List (Nat × List Nat) → List (Nat × List Nat)
  | [] => [p]
  | q :: rest =>
    if lexLt (natDigits p.1) (natDigits q.1) then p :: q :: rest
    else q :: insertByName p rest

/-- The order `filepath.Glob(filepath.Join(directory, "segment-*"))`
returns the segment files in: sorted lexically by name, which for names
sharing the `segment-` part is the lexicographic order of the decimal
suffixes — not their numeric order. -/
def globOrder : List (Nat × List Nat) → List (Nat × List Nat)
  | [] => []
  | p :: rest => insertByName p (globOrder rest)

/-- Loop body of `ReadAllFromIndex` (src/unnamed/part_000:50-77) over the
glob-ordered file list: segments whose parsed numeric suffix
(`strconv.Atoi` of the name after `segment-`) is below the requested
index are skipped; a failed scan returns only the entries accumulated
from previous segments together with the error; a checkpoint observed
with a sequence number above the running maximum resets the
accumulator. -/
def readIdxLoop (fromCheckpoint : Bool) (index : Nat) :
    List (Nat × List Nat) → List WAL_Entry → Nat → List WAL_Entry × Option WalErr
  | [], entries, _ => (entries, none)
  | (segmentIdx, file) :: rest, entries, prevCheckPointLSN =>
    if segmentIdx < index then
      readIdxLoop fromCheckpoint index rest entries prevCheckPointLSN
    else
      match readAllEntriesFromFile file fromCheckpoint with
      | (_, _, some err) => (entries, some err)
      | (entriesFromCurrentSegment, checkPointLSN, none) =>
        if fromCheckpoint ∧ checkPointLSN > prevCheckPointLSN then
          readIdxLoop fromCheckpoint index rest ([] ++ entriesFromCurrentSegment)
            checkPointLSN
        else
          readIdxLoop fromCheckpoint index rest (entries ++ entriesFromCurrentSegment)
            prevCheckPointLSN

/-- `ReadAllFromIndex` (src/unnamed/part_000:41): multi-segment replay
starting from the given segment index, enumerating segments in the order
`filepath.Glob` lists them. -/
def ReadAllFromIndex (directory : List (Nat × List Nat)) (index : Nat)
    (fromCheckpoint : Bool) : List WAL_Entry × Option WalErr :=
  readIdxLoop fromCheckpoint index (globOrder directory) [] 0

/-- Insert one (index, contents) pair into a list sorted by numeric
index. -/
def insertByIdx (p : Nat × List Nat) :
    List (Nat × List Nat) → List (Nat × List Nat)
  | [] => [p]
  | q :: rest => if p.1 ≤ q.1 then p :: q :: rest else q :: insertByIdx p rest

/-- Ascending numeric-suffix order of the segment files. -/
def numericOrder : List (Nat × List Nat) → List (Nat × List Nat)
  | [] => []
  | p :: rest => insertByIdx p (numericOrder rest)

/-- Modelled from the spec: identical to `ReadAllFromIndex` except that
the discovered segments are enumerated in ascending order of their
numeric suffix, as §9 of the spec ("Segment enumeration ordering")
requires of replay; used to compare the source's glob order against the
claimed numeric order. -/
def ReadAllFromIndexNumeric (directory : List (Nat × List Nat)) (index : Nat)
    (fromCheckpoint : Bool) : List WAL_Entry × Option WalErr :=
  readIdxLoop fromCheckpoint index (numericOrder directory) [] 0

/-! ## Recovery Reader: last-entry recovery (src/read.go) -/

/-- Loop of `getLastEntryInCurrentSegment` (src/read.go:26-76), translated
faithfully, including its defect: the length field is read with
`binary.Read(file, binary.LittleEndian, size)` — `size` passed by VALUE,
not `&size` (compare `&size` in `readAllEntriesFromFile`).  `binary.Read`
requires a pointer destination; given a plain `int32` it consumes the 4
bytes sized for the type but can never store the decoded value, so `size`
keeps its zero value on every iteration (this models the historical
read-and-discard behavior of `encoding/binary`; current Go instead
returns an `invalid type int32` error after the same consumption — under
either behavior no length is ever decoded).  Consequently `offset`
advances 4 bytes per iteration, `prevSize` stays 0, and the seek over the
body (`file.Seek(int64(size), io.SeekCurrent)`) seeks by 0.

Arguments: `pos` is the read position, `prevSize` the last "decoded"
length, `offset` the position after the last length field.  On a clean
EOF (no bytes left before a length read) with `offset == 0` the walk
yields no entry; otherwise it seeks back to `offset`, reads `prevSize`
bytes and decodes them with `UnmarshalAndVerifyEntry`. -/
def lastEntryLoopCode (file : List Nat) :
    Nat → Nat → Nat → Nat → Option WAL_Entry × Option WalErr
  | 0, _, _, _ => (none, some .outOfFuel)
  | fuel + 1, pos, prevSize, offset =>
    if file.length ≤ pos then
      if offset = 0 then (none, none)
      else if (file.drop offset).length < prevSize then (none, some .truncated)
      else
        match UnmarshalAndVerifyEntry ((file.drop offset).take prevSize) with
        | (_, some err) => (none, some err)
        | (entry, none) => (entry, none)
    else if file.length < pos + 4 then (none, some .truncated)
    else
      -- 4 bytes consumed by binary.Read but never stored: size = 0,
      -- offset = current position, seek over the body moves by 0.
      lastEntryLoopCode file fuel (pos + 4 + 0) 0 (pos + 4)

/-- `getLastEntryInCurrentSegment` (src/read.go:26): walk the current
segment to recover its last entry. -/
def getLastEntryInCurrentSegment (file : List Nat) :
    Option WAL_Entry × Option WalErr :=
  lastEntryLoopCode file (file.length + 1) 0 0 0

/-- `getLastSequenceNumber` (src/read.go:13): the last entry's sequence
number, 0 when the segment is empty, the error otherwise. -/
def getLastSequenceNumber (file : List Nat) : Nat × Option WalErr :=
  match getLastEntryInCurrentSegment file with
  | (_, some err) => (0, some err)
  | (some lastEntry, none) => (lastEntry.logSequenceNumber, none)
  | (none, none) => (0, none)

/-- Modelled from the spec: the last-entry recovery walk of §4.4 mode 2 —
the loop `getLastEntryInCurrentSegment` was written to perform: each
4-byte length field is actually decoded into `size`, the body of that
length is skipped by seeking, and at a clean EOF the last frame's body
(`prevSize` bytes at `offset`) is re-read and decoded.  This is the
source loop with the single repair `binary.Read(file, binary.LittleEndian,
&size)`. -/
def lastEntryLoopSpec (file : List Nat) :
    Nat → Nat → Nat → Nat → Option WAL_Entry × Option WalErr
  | 0, _, _, _ => (none, some .outOfFuel)
  | fuel + 1, pos, prevSize, offset =>
    if file.length ≤ pos then
      if offset = 0 then (none, none)
      else if (file.drop offset).length < prevSize then (none, some .truncated)
      else
        match UnmarshalAndVerifyEntry ((file.drop offset).take prevSize) with
        | (_, some err) => (none, some err)
        | (entry, none) => (entry, none)
    else if file.length < pos + 4 then (none, some .truncated)
    else
      let size := leDecode ((file.drop pos).take 4)
      lastEntryLoopSpec file fuel (pos + 4 + size) size (pos + 4)

/-- Modelled from the spec: `getLastEntryInCurrentSegment` as §4.4 mode 2
describes it (see `lastEntryLoopSpec`). -/
def lastEntryWalkSpec (file : List Nat) : Option WAL_Entry × Option WalErr :=
  lastEntryLoopSpec file (file.length + 1) 0 0 0

/-- `utils.FindLastSegmentId` (src/utils/helpers.go:21): greatest numeric
suffix among the segment files (the suffixes parse back from the names
built by `fmt.Sprintf("segment-%d", id)`). -/
def FindLastSegmentId (files : List Nat) : Nat :=
  files.foldl (fun lastSegmentId curSegmentId =>
    if curSegmentId > lastSegmentId then curSegmentId else lastSegmentId) 0

/-! ## Append Engine (src/unnamed/part_003) -/

/-- Contents of the segment file with the given index (empty if absent;
the write path only ever looks up indices it has created). -/
def lookupFile : List (Nat × List Nat) → Nat → List Nat
  | [], _ => []
  | p :: rest, i => if p.1 = i then p.2 else lookupFile rest i

/-- Overwrite (or create, `os.Create` style) the segment file with the
given index. -/
def setFile : List (Nat × List Nat) → Nat → List Nat → List (Nat × List Nat)
  | [], i, bs => [(i, bs)]
  | p :: rest, i, bs => if p.1 = i then (i, bs) :: rest else p :: setFile rest i bs

/-- `os.Remove` of the segment file with the given index (first match). -/
def removeSeg : List (Nat × List Nat) → Nat → List (Nat × List Nat)
  | [], _ => []
  | p :: rest, i => if p.1 = i then rest else p :: removeSeg rest i

/-- The `WAL` struct (src/unnamed/part_001:17-51) restricted to the state
the claims are about: the directory of segment files, the last assigned
sequence number (`uint64`), the bytes sitting in the `bufio.Writer`
(modeled as unbounded: Go's 4096-byte window drains early into the file,
which only hastens durability and is below the spec's abstraction), the
rotation threshold, the retention limit and the current segment index.
The mutex, flush timer, fsync flag and context govern concurrency and
timing and are outside this embedding. -/
structure WAL where
  directory : List (Nat × List Nat)
  lastSequenceNumber : Nat
  buffer : List Nat
  maxSegmentSize : Nat
  maxSegmentsNumber : Nat
  currentSegmentIndex : Nat
  deriving DecidableEq, Repr

/-- Contents on disk of the current segment file. -/
def currentFile (wal : WAL) : List Nat :=
  lookupFile wal.directory wal.currentSegmentIndex

/-- `Flush` (src/unnamed/part_002:129 / part_003:240): drain the
`bufio.Writer` into the current segment file.  (The optional fsync and
the timer reset have no observable effect in this model.) -/
def Flush (wal : WAL) : WAL :=
  { wal with
    directory := setFile wal.directory wal.currentSegmentIndex
      (currentFile wal ++ wal.buffer)
    buffer := [] }

/-- `findOldestSegmentFile` (src/unnamed/part_003:345): smallest numeric
suffix among the given segment files, scanning from `math.MaxInt64`. -/
def findOldestSegmentFile (files : List Nat) : Nat :=
  files.foldl (fun oldestSegmentId segmentIdx =>
    if segmentIdx < oldestSegmentId then segmentIdx else oldestSegmentId) (2 ^ 63 - 1)

/-- `deleteOldestSegment` (src/unnamed/part_003:338): remove the segment
file with the lowest index; a no-op when no segment files exist. -/
def deleteOldestSegment (wal : WAL) : WAL :=
  if wal.directory = [] then wal
  else
    { wal with
      directory := removeSeg wal.directory
        (findOldestSegmentFile (wal.directory.map Prod.fst)) }

/-- `changeLogSegment` (src/unnamed/part_003:310): flush, close the
current segment, increment the segment index (a Go `uint`, hence the
`% 2^64`), delete the oldest segment if the new index exceeds
`maxSegmentsNumber`, then create the new segment file and a fresh
buffer. -/
def changeLogSegment (wal : WAL) : WAL :=
  let wal := Flush wal
  let wal := { wal with currentSegmentIndex := (wal.currentSegmentIndex + 1) % 2 ^ 64 }
  let wal :=
    if wal.currentSegmentIndex > wal.maxSegmentsNumber then deleteOldestSegment wal
    else wal
  { wal with
    directory := setFile wal.directory wal.currentSegmentIndex []
    buffer := [] }

/-- Fault-injection switches for the three failure sites claim C9 names:
the rotation check (`(*os.File).Stat`), the flush performed inside a
checkpoint write, and writing the frame into the buffer. -/
structure Faults where
  statFails : Bool
  checkpointFlushFails : Bool
  bufWriteFails : Bool
  deriving DecidableEq, Repr

/-- All I/O succeeds. -/
def noFaults : Faults := ⟨false, false, false⟩

/-- `changeLogSegmentIfNeeded` (src/unnamed/part_003:295): rotate when
`fileInfo.Size() + bufferWriter.Buffered() >= maxSegmentSize`.  The
injected `statFails` fault makes the initial `Stat` call fail, before
anything is mutated. -/
def changeLogSegmentIfNeeded (flt : Faults) (wal : WAL) : WAL × Option WalErr :=
  if flt.statFails then (wal, some .statFail)
  else if (currentFile wal).length + wal.buffer.length ≥ wal.maxSegmentSize then
    (changeLogSegment wal, none)
  else (wal, none)

/-- `writeEntryToBuffer` (src/unnamed/part_003:381): marshal the entry
and append the length-framed bytes to the `bufio.Writer`. -/
def writeEntryToBuffer (flt : Faults) (entry : WAL_Entry) (wal : WAL) :
    WAL × Option WalErr :=
  if flt.bufWriteFails then (wal, some .bufWriteFail)
  else ({ wal with buffer := wal.buffer ++ frameBytes entry }, none)

/-- `writeEntry` (src/unnamed/part_003:268): check rotation, advance
`lastSequenceNumber` (`uint64`), build the entry with
`CRC: crc32.ChecksumIEEE(append(data, byte(wal.lastSequenceNumber)))`;
for a checkpoint, flush everything buffered so far and set the
`IsCheckpoint` flag (after the CRC was computed); finally frame the entry
into the buffer. -/
def writeEntry (flt : Faults) (data : List Nat) (isCheckpoint : Bool) (wal : WAL) :
    WAL × Option WalErr :=
  match changeLogSegmentIfNeeded flt wal with
  | (wal, some err) => (wal, some err)
  | (wal, none) =>
    let wal := { wal with lastSequenceNumber := (wal.lastSequenceNumber + 1) % 2 ^ 64 }
    let newEntry : WAL_Entry :=
      ⟨wal.lastSequenceNumber, data,
        ChecksumIEEE (data ++ [wal.lastSequenceNumber % 256]), none⟩
    if isCheckpoint then
      if flt.checkpointFlushFails then (wal, some .flushFail)
      else writeEntryToBuffer flt { newEntry with isCheckpoint := some true } (Flush wal)
    else writeEntryToBuffer flt newEntry wal

/-- `WriteEntry` (src/unnamed/part_003:237): append a non-checkpoint
record. -/
def WriteEntry (data : List Nat) (wal : WAL) : WAL × Option WalErr :=
  writeEntry noFaults data false wal

/-- `CreateCheckpoint` (src/unnamed/part_003:243): append a checkpoint
record. -/
def CreateCheckpoint (data : List Nat) (wal : WAL) : WAL × Option WalErr :=
  writeEntry noFaults data true wal

/-- `GetWAL` (src/unnamed/part_002:53-107): find the greatest existing
segment index (0 when the directory is empty), open that segment file
with `O_CREATE`, recover `lastSequenceNumber` from it via
`getLastSequenceNumber`, failing the open when recovery fails.  (The
background flush goroutine is outside this embedding.) -/
def GetWAL (directory : List (Nat × List Nat)) (maxFileSize maxSegments : Nat) :
    Option WAL × Option WalErr :=
  let lastSegmentId :=
    if directory.length > 0 then FindLastSegmentId (directory.map Prod.fst) else 0
  let directory :=
    if (directory.map Prod.fst).contains lastSegmentId then directory
    else setFile directory lastSegmentId []
  match getLastSequenceNumber (lookupFile directory lastSegmentId) with
  | (_, some err) => (none, some err)
  | (lastSequenceNumber, none) =>
    (some ⟨directory, lastSequenceNumber, [], maxFileSize, maxSegments, lastSegmentId⟩,
      none)

/-- The state `GetWAL` builds for an empty directory: segment 0 created
empty, counters at 0. -/
def freshWAL (maxFileSize maxSegments : Nat) : WAL :=
  ⟨[(0, [])], 0, [], maxFileSize, maxSegments, 0⟩

/-- Iterated rotation: the segment-lifecycle states reachable from a
fresh log by `n` rotations (writes and flushes between rotations change
file contents and the buffer but never the set of segment indices). -/
def iterRot : Nat → WAL → WAL
  | 0, wal => wal
  | n + 1, wal => changeLogSegment (iterRot n wal)

/-- A write or checkpoint call, for stating properties of call
sequences. -/
inductive WalOp where
  | write (data : List Nat)
  | checkpoint (data : List Nat)
  deriving DecidableEq, Repr

/-- Run a sequence of calls with no injected faults, collecting the
sequence number each call assigns (the value `writeEntry` stores into
`wal.lastSequenceNumber` and into the record it appends). -/
def runTrace : List WalOp → WAL → WAL × List Nat
  | [], wal => (wal, [])
  | op :: rest, wal =>
    let r := match op with
      | .write data => writeEntry noFaults data false wal
      | .checkpoint data => writeEntry noFaults data true wal
    let t := runTrace rest r.1
    (t.1, r.1.lastSequenceNumber :: t.2)

/-- `[lo, lo+1, ..., lo+len-1]`: the expected segment indices / sequence
numbers. -/
def segRange : Nat → Nat → List Nat
  | _, 0 => []
  | lo, len + 1 => lo :: segRange (lo + 1) len

/-- Frame-level description of what one scan step of
`readAllEntriesFromFile` does to the accumulator and the checkpoint
tracker: a checkpoint record (in checkpoint-filtered mode) discards
everything accumulated and restarts from itself, anything else is
appended. -/
def scanEntries (fromCheckPoint : Bool) (acc : List WAL_Entry) (checkPointLSN : Nat) :
    List WAL_Entry → List WAL_Entry × Nat
  | [] => (acc, checkPointLSN)
  | e :: rest =>
    if e.isCheckpoint = some true ∧ fromCheckPoint then
      scanEntries fromCheckPoint [e] e.logSequenceNumber rest
    else
      scanEntries fromCheckPoint (acc ++ [e]) checkPointLSN rest

/-- Entries whose encodings the scan lemmas cover: sequence number and
CRC within their machine-integer ranges, frame length within `int32`, and
a stored checksum that verifies. -/
def GoodEntry (e : WAL_Entry) : Prop :=
  e.logSequenceNumber < 2 ^ 64 ∧ e.crc < 2 ^ 32 ∧ e.data.length + 13 < 2 ^ 31 ∧
    isValidCRC e = true

instance (e : WAL_Entry) : Decidable (GoodEntry e) := by
  unfold GoodEntry; infer_instance

end Wal

namespace Wal

/-! ## Concrete instances used by the claims -/

/-- Record `A`: payload byte 65, first write of a fresh log. -/
def entA : WAL_Entry := ⟨1, [65], ChecksumIEEE ([65] ++ [1]), none⟩

/-- Record `B`: payload byte 66, second write. -/
def entB : WAL_Entry := ⟨2, [66], ChecksumIEEE ([66] ++ [2]), none⟩

/-- Checkpoint record `C`: payload byte 67, third call. -/
def entC : WAL_Entry := ⟨3, [67], ChecksumIEEE ([67] ++ [3]), some true⟩

/-- Record `D`: payload byte 68, fourth call. -/
def entD : WAL_Entry := ⟨4, [68], ChecksumIEEE ([68] ++ [4]), none⟩

/-- A good record sitting in front of a corrupt one in segment 1. -/
def entG : WAL_Entry := ⟨2, [71], ChecksumIEEE ([71] ++ [2]), none⟩

/-- A corrupt record: its stored checksum (5) does not match the
recomputed one. -/
def entBad : WAL_Entry := ⟨7, [66], 5, none⟩

/-- The single record of the one-frame segment used against claim C1; its
payload has 3 bytes so the 20-byte file is a multiple of the 4-byte
stride of the broken recovery walk (a clean `io.EOF`, the most favorable
case for the walk). -/
def e1 : WAL_Entry := ⟨1, [97, 97, 97], ChecksumIEEE ([97, 97, 97] ++ [1]), none⟩

/-- The state after `write A; write B; checkpoint C; write D` on a fresh
log whose segment-size threshold is far away. -/
def w4 : WAL :=
  (writeEntry noFaults [68] false
    (writeEntry noFaults [67] true
      (writeEntry noFaults [66] false
        (writeEntry noFaults [65] false (freshWAL 1000000 5)).1).1).1).1

/-- Directory with segment indices 2 and 10: lexicographic name order
(`segment-10` before `segment-2`) disagrees with numeric order. -/
def dirLex : List (Nat × List Nat) :=
  [(2, framesBytes [entA]), (10, framesBytes [entB])]

/-- Directory holding writes `A, B` and no checkpoint. -/
def dirNoCp : List (Nat × List Nat) := [(0, framesBytes [entA, entB])]

/-- Directory whose segment 1 fails mid-scan: a good record, then a
corrupt one. -/
def dirPartial : List (Nat × List Nat) :=
  [(0, framesBytes [entA]), (1, framesBytes [entG, entBad])]

/-! ## Codec lemmas -/

/-- Taking the length of the front list from a concatenation returns the
front list. -/
theorem take_append_self (xs ys : List Nat) : (xs ++ ys).take xs.length = xs := by
  induction xs with
  | nil => simp
  | cons a rest ih => simp [ih]

/-- Dropping the length of the front list from a concatenation returns
the back list. -/
theorem drop_append_self (xs ys : List Nat) : (xs ++ ys).drop xs.length = ys := by
  induction xs with
  | nil => simp
  | cons a rest ih => simp [ih]

/-- Little-endian 32-bit round trip. -/
theorem leDecode_u32le (n : Nat) (h : n < 2 ^ 32) : leDecode (u32le n) = n := by
  simp only [u32le, leDecode]
  omega

/-- Little-endian 64-bit round trip. -/
theorem leDecode_u64le (n : Nat) (h : n < 2 ^ 64) : leDecode (u64le n) = n := by
  simp only [u64le, leDecode]
  omega

/-- A serialized entry is 13 bytes of header plus the payload. -/
theorem marshalEntry_length (e : WAL_Entry) :
    (marshalEntry e).length = 13 + e.data.length := by
  obtain ⟨lsn, data, crc, cp⟩ := e
  rcases cp with - | b
  · simp [marshalEntry, u64le, u32le]; omega
  · rcases b <;> · simp [marshalEntry, u64le, u32le]; omega

/-- Decoding the concatenated field layout of the codec recovers each
field. -/
theorem unmarshalEntry_layout (lsn crc k : Nat) (data : List Nat)
    (h1 : lsn < 2 ^ 64) (h2 : crc < 2 ^ 32) :
    unmarshalEntry (u64le lsn ++ u32le crc ++ ([k] ++ data)) =
      (if k = 0 then some ⟨lsn, data, crc, none⟩
       else if k = 1 then some ⟨lsn, data, crc, some false⟩
       else if k = 2 then some ⟨lsn, data, crc, some true⟩ else none) := by
  have hassoc : u64le lsn ++ u32le crc ++ ([k] ++ data) =
      u64le lsn ++ (u32le crc ++ ([k] ++ data)) := by
    rw [List.append_assoc]
  have hL8 : (u64le lsn).length = 8 := rfl
  have hL4 : (u32le crc).length = 4 := rfl
  have hlen : (u64le lsn ++ u32le crc ++ ([k] ++ data)).length = 13 + data.length := by
    simp [hL8, hL4]
    omega
  have hne : u64le lsn ++ u32le crc ++ ([k] ++ data) ≠ [] := by
    intro hc
    have := congrArg List.length hc
    rw [hlen] at this
    simp at this
  have hdrop8 : (u64le lsn ++ u32le crc ++ ([k] ++ data)).drop 8 =
      u32le crc ++ ([k] ++ data) := by
    rw [hassoc, ← hL8, drop_append_self]
  have htake8 : (u64le lsn ++ u32le crc ++ ([k] ++ data)).take 8 = u64le lsn := by
    rw [hassoc, ← hL8, take_append_self]
  have htake4 : ((u64le lsn ++ u32le crc ++ ([k] ++ data)).drop 8).take 4 =
      u32le crc := by
    rw [hdrop8, ← hL4, take_append_self]
  have hdrop12 : (u64le lsn ++ u32le crc ++ ([k] ++ data)).drop 12 = [k] ++ data := by
    have hcomp : ((u64le lsn ++ u32le crc ++ ([k] ++ data)).drop 8).drop 4 =
        (u64le lsn ++ u32le crc ++ ([k] ++ data)).drop 12 := by
      rw [List.drop_drop]
    rw [← hcomp, hdrop8, ← hL4, drop_append_self]
  have hdrop13 : (u64le lsn ++ u32le crc ++ ([k] ++ data)).drop 13 = data := by
    have hcomp : ((u64le lsn ++ u32le crc ++ ([k] ++ data)).drop 12).drop 1 =
        (u64le lsn ++ u32le crc ++ ([k] ++ data)).drop 13 := by
      rw [List.drop_drop]
    rw [← hcomp, hdrop12]
    rfl
  have hhead : ((u64le lsn ++ u32le crc ++ ([k] ++ data)).drop 12).headD 0 = k := by
    rw [hdrop12]
    rfl
  simp only [unmarshalEntry, if_neg hne, hlen, if_neg (by omega : ¬13 + data.length < 13),
    hhead, htake8, htake4, hdrop13, leDecode_u64le lsn h1, leDecode_u32le crc h2]
  rcases k with - | - | - | k <;> simp

/-- The codec round-trips on entries whose numeric fields fit their
machine widths. -/
theorem unmarshal_marshal (e : WAL_Entry) (h1 : e.logSequenceNumber < 2 ^ 64)
    (h2 : e.crc < 2 ^ 32) : unmarshalEntry (marshalEntry e) = some e := by
  obtain ⟨lsn, data, crc, cp⟩ := e
  rcases cp with - | b
  · simpa [marshalEntry, ← List.append_assoc] using
      unmarshalEntry_layout lsn crc 0 data h1 h2
  · rcases b
    · simpa [marshalEntry, ← List.append_assoc] using
        unmarshalEntry_layout lsn crc 1 data h1 h2
    · simpa [marshalEntry, ← List.append_assoc] using
        unmarshalEntry_layout lsn crc 2 data h1 h2

end Wal

namespace Wal

/-- Xor of two 32-bit values stays 32-bit. -/
theorem xor_lt_32 {x y : Nat} (hx : x < 2 ^ 32) (hy : y < 2 ^ 32) :
    x ^^^ y < 2 ^ 32 :=
  Nat.bitwise_lt hx hy

/-- One CRC round stays 32-bit. -/
theorem crc32Round_lt {c : Nat} (h : c < 2 ^ 32) : crc32Round c < 2 ^ 32 := by
  unfold crc32Round
  split
  · exact xor_lt_32 (by omega) (by norm_num)
  · omega

/-- Iterated CRC rounds stay 32-bit. -/
theorem crc32Bits_lt (k : Nat) {c : Nat} (h : c < 2 ^ 32) :
    crc32Bits k c < 2 ^ 32 := by
  induction k generalizing c with
  | zero => exact h
  | succ k ih => exact ih (crc32Round_lt h)

/-- Folding a byte keeps the CRC state 32-bit. -/
theorem crc32Update_lt {c : Nat} (b : Nat) (h : c < 2 ^ 32) :
    crc32Update c b < 2 ^ 32 :=
  crc32Bits_lt 8 (xor_lt_32 h (by have := Nat.mod_lt b (y := 256) (by omega); omega))

/-- Folding any byte list keeps the CRC state 32-bit. -/
theorem crc32Fold_lt (bs : List Nat) {c : Nat} (h : c < 2 ^ 32) :
    crc32Fold bs c < 2 ^ 32 := by
  induction bs generalizing c with
  | nil => exact h
  | cons b rest ih => exact ih (crc32Update_lt b h)

/-- The checksum is a 32-bit value. -/
theorem ChecksumIEEE_lt (bs : List Nat) : ChecksumIEEE bs < 2 ^ 32 :=
  xor_lt_32 (crc32Fold_lt bs (by norm_num)) (by norm_num)

/-- Reading back a well-formed, correctly checksummed entry yields the
entry and no error. -/
theorem UnmarshalAndVerify_good (e : WAL_Entry) (h : GoodEntry e) :
    UnmarshalAndVerifyEntry (marshalEntry e) = (some e, none) := by
  obtain ⟨h1, h2, -, h4⟩ := h
  simp [UnmarshalAndVerifyEntry, unmarshal_marshal e h1 h2, h4]

/-- Reading back an entry whose stored checksum does not verify is the
corruption error, never the entry. -/
theorem UnmarshalAndVerify_bad (e : WAL_Entry) (h1 : e.logSequenceNumber < 2 ^ 64)
    (h2 : e.crc < 2 ^ 32) (h4 : isValidCRC e = false) :
    UnmarshalAndVerifyEntry (marshalEntry e) = (none, some .crcMismatch) := by
  simp [UnmarshalAndVerifyEntry, unmarshal_marshal e h1 h2, h4]

end Wal

namespace Wal

/-- One iteration of the scan loop consumes exactly one well-formed
frame and performs the checkpoint-reset-then-append step on the
accumulator. -/
theorem readAllLoop_cons (b : Bool) (fuel : Nat) (e : WAL_Entry) (tail : List Nat)
    (acc : List WAL_Entry) (cp : Nat) (hGood : GoodEntry e) :
    readAllLoop b (fuel + 1) (frameBytes e ++ tail) acc cp =
      (if e.isCheckpoint = some true ∧ b then
        readAllLoop b fuel tail [e] e.logSequenceNumber
      else readAllLoop b fuel tail (acc ++ [e]) cp) := by
  obtain ⟨h1, h2, h3, h4⟩ := hGood
  have hL : (marshalEntry e).length = 13 + e.data.length := marshalEntry_length e
  have hmod : (marshalEntry e).length % 2 ^ 32 = (marshalEntry e).length :=
    Nat.mod_eq_of_lt (by omega)
  have hsplit : frameBytes e ++ tail =
      u32le ((marshalEntry e).length % 2 ^ 32) ++ (marshalEntry e ++ tail) := by
    rw [frameBytes, List.append_assoc]
  have hu32len : (u32le ((marshalEntry e).length % 2 ^ 32)).length = 4 := rfl
  have hne : ¬(frameBytes e ++ tail = []) := by
    rw [hsplit]
    intro hc
    have := congrArg List.length hc
    simp [u32le] at this
  have hlt4 : ¬((frameBytes e ++ tail).length < 4) := by
    rw [hsplit]
    simp [u32le]
  have htake4 : (frameBytes e ++ tail).take 4 =
      u32le ((marshalEntry e).length % 2 ^ 32) := by
    rw [hsplit]
    exact List.take_left' hu32len
  have hdrop4 : (frameBytes e ++ tail).drop 4 = marshalEntry e ++ tail := by
    rw [hsplit]
    exact List.drop_left' hu32len
  have hsize : leDecode ((frameBytes e ++ tail).take 4) = (marshalEntry e).length := by
    rw [htake4, hmod]
    exact leDecode_u32le _ (by omega)
  have h31 : ¬(2 ^ 31 ≤ (marshalEntry e).length) := by omega
  have hreadfull : ¬(((frameBytes e ++ tail).drop 4).length < (marshalEntry e).length) := by
    rw [hdrop4]
    simp
  have htakeL : ((frameBytes e ++ tail).drop 4).take (marshalEntry e).length =
      marshalEntry e := by
    rw [hdrop4]
    exact List.take_left' rfl
  have hdropL : ((frameBytes e ++ tail).drop 4).drop (marshalEntry e).length = tail := by
    rw [hdrop4]
    exact List.drop_left' rfl
  have hVerify : UnmarshalAndVerifyEntry (marshalEntry e) = (some e, none) :=
    UnmarshalAndVerify_good e ⟨h1, h2, h3, h4⟩
  simp only [readAllLoop, hsize, if_neg hne, if_neg hlt4, if_neg h31, if_neg hreadfull,
    htakeL, hdropL, hVerify]

/-- The byte-level scan of a file holding exactly the frames of a list of
well-formed entries succeeds and computes the frame-level
checkpoint-reset fold, for any sufficient fuel and any starting
accumulator. -/
theorem readAllLoop_frames (b : Bool) (es : List WAL_Entry)
    (h : ∀ e ∈ es, GoodEntry e) :
    ∀ fuel acc cp, es.length < fuel →
      readAllLoop b fuel (framesBytes es) acc cp =
        ((scanEntries b acc cp es).1, (scanEntries b acc cp es).2, none) := by
  induction es with
  | nil =>
    intro fuel acc cp hfuel
    match fuel, hfuel with
    | fuel + 1, _ => simp [readAllLoop, framesBytes, scanEntries]
  | cons e rest ih =>
    intro fuel acc cp hfuel
    match fuel, hfuel with
    | fuel + 1, hfuel =>
      have hGood : GoodEntry e := h e (by simp)
      rw [show framesBytes (e :: rest) = frameBytes e ++ framesBytes rest from rfl,
        readAllLoop_cons b fuel e (framesBytes rest) acc cp hGood]
      have hrest : ∀ e' ∈ rest, GoodEntry e' := fun e' he' => h e' (by simp [he'])
      have hfuel' : rest.length < fuel := by
        simp at hfuel
        omega
      by_cases hcp : e.isCheckpoint = some true ∧ b
      · rw [if_pos hcp, ih hrest fuel [e] e.logSequenceNumber hfuel',
          show scanEntries b acc cp (e :: rest) =
            scanEntries b [e] e.logSequenceNumber rest from by
          rw [scanEntries, if_pos hcp]]
      · rw [if_neg hcp, ih hrest fuel (acc ++ [e]) cp hfuel',
          show scanEntries b acc cp (e :: rest) =
            scanEntries b (acc ++ [e]) cp rest from by
          rw [scanEntries, if_neg hcp]]

/-- A file of frames has more bytes than frames. -/
theorem framesBytes_length_lt (es : List WAL_Entry) :
    es.length < (framesBytes es).length + 1 := by
  induction es with
  | nil => simp [framesBytes]
  | cons e rest ih =>
    have hf : (frameBytes e).length = 4 + (marshalEntry e).length := by
      simp [frameBytes, u32le]
      omega
    simp only [framesBytes, List.length_cons, List.length_append, hf]
    omega

/-- `readAllEntriesFromFile` on a file of well-formed frames: clean
success with the checkpoint-reset fold of the frame list. -/
theorem readAllEntriesFromFile_frames (b : Bool) (es : List WAL_Entry)
    (h : ∀ e ∈ es, GoodEntry e) :
    readAllEntriesFromFile (framesBytes es) b =
      ((scanEntries b [] 0 es).1, (scanEntries b [] 0 es).2, none) :=
  readAllLoop_frames b es h _ [] 0 (framesBytes_length_lt es)

end Wal

namespace Wal

/-- Looking up the file just written by `setFile`. -/
theorem lookupFile_setFile (l : List (Nat × List Nat)) (i : Nat) (bs : List Nat) :
    lookupFile (setFile l i bs) i = bs := by
  induction l with
  | nil => simp [setFile, lookupFile]
  | cons p rest ih =>
    by_cases hp : p.1 = i
    · simp [setFile, lookupFile, hp]
    · simp [setFile, lookupFile, hp, ih]

/-- `Flush` moves the buffered bytes to the end of the current segment
file, empties the buffer, and changes nothing else. -/
theorem Flush_spec (w : WAL) :
    currentFile (Flush w) = currentFile w ++ w.buffer ∧ (Flush w).buffer = [] ∧
      (Flush w).lastSequenceNumber = w.lastSequenceNumber ∧
      (Flush w).currentSegmentIndex = w.currentSegmentIndex ∧
      (Flush w).maxSegmentSize = w.maxSegmentSize ∧
      (Flush w).maxSegmentsNumber = w.maxSegmentsNumber := by
  refine ⟨?_, rfl, rfl, rfl, rfl, rfl⟩
  simp [Flush, currentFile, lookupFile_setFile]

/-- Rotation never touches the sequence counter or the configured
limits. -/
theorem changeLogSegment_pres (w : WAL) :
    (changeLogSegment w).lastSequenceNumber = w.lastSequenceNumber ∧
      (changeLogSegment w).maxSegmentSize = w.maxSegmentSize ∧
      (changeLogSegment w).maxSegmentsNumber = w.maxSegmentsNumber := by
  simp only [changeLogSegment, deleteOldestSegment, Flush]
  refine ⟨?_, ?_, ?_⟩ <;> (split <;> try split) <;> rfl

/-- With no injected faults, the rotation check never fails and never
touches the sequence counter or the configured limits. -/
theorem changeLogSegmentIfNeeded_pres (w : WAL) :
    (changeLogSegmentIfNeeded noFaults w).2 = none ∧
      (changeLogSegmentIfNeeded noFaults w).1.lastSequenceNumber = w.lastSequenceNumber ∧
      (changeLogSegmentIfNeeded noFaults w).1.maxSegmentSize = w.maxSegmentSize ∧
      (changeLogSegmentIfNeeded noFaults w).1.maxSegmentsNumber = w.maxSegmentsNumber := by
  unfold changeLogSegmentIfNeeded noFaults
  split
  · simp_all
  · split
    · simpa using changeLogSegment_pres w
    · simp

/-- A write or checkpoint call with no injected faults succeeds and sets
the sequence counter to its successor modulo `2^64`. -/
theorem writeEntry_noFaults_ok (w : WAL) (data : List Nat) (cp : Bool) :
    (writeEntry noFaults data cp w).2 = none ∧
      (writeEntry noFaults data cp w).1.lastSequenceNumber =
        (w.lastSequenceNumber + 1) % 2 ^ 64 := by
  obtain ⟨herr, hlsn, -, -⟩ := changeLogSegmentIfNeeded_pres w
  unfold writeEntry
  cases hr : changeLogSegmentIfNeeded noFaults w with
  | mk w1 err =>
    rw [hr] at herr hlsn
    simp at herr hlsn
    subst herr
    simp only
    cases cp with
    | false => simp [writeEntryToBuffer, noFaults, hlsn]
    | true => simp [writeEntryToBuffer, noFaults, Flush, hlsn]

/-- A non-checkpoint write that needs no rotation appends exactly one
frame to the buffer, carrying the payload, the new sequence number, and
the checksum of the payload extended with the low byte of that sequence
number; nothing reaches disk. -/
theorem writeEntry_write_noRot (w : WAL) (data : List Nat)
    (h : (currentFile w).length + w.buffer.length < w.maxSegmentSize) :
    writeEntry noFaults data false w =
      ({ w with
          lastSequenceNumber := (w.lastSequenceNumber + 1) % 2 ^ 64,
          buffer := w.buffer ++ frameBytes
            ⟨(w.lastSequenceNumber + 1) % 2 ^ 64, data,
              ChecksumIEEE (data ++ [(w.lastSequenceNumber + 1) % 2 ^ 64 % 256]),
              none⟩ }, none) := by
  have hrot : ¬((lookupFile w.directory w.currentSegmentIndex).length +
      w.buffer.length ≥ w.maxSegmentSize) := by
    simp only [currentFile] at h
    omega
  simp [writeEntry, changeLogSegmentIfNeeded, writeEntryToBuffer, noFaults,
    currentFile, hrot]

/-- A checkpoint call that needs no rotation first flushes the buffered
records onto the current segment file, then leaves exactly the checkpoint
record's frame in the buffer — the checkpoint itself is not on disk. -/
theorem writeEntry_cp_noRot (w : WAL) (data : List Nat)
    (h : (currentFile w).length + w.buffer.length < w.maxSegmentSize) :
    writeEntry noFaults data true w =
      ({ w with
          directory := setFile w.directory w.currentSegmentIndex
            (currentFile w ++ w.buffer),
          lastSequenceNumber := (w.lastSequenceNumber + 1) % 2 ^ 64,
          buffer := frameBytes
            ⟨(w.lastSequenceNumber + 1) % 2 ^ 64, data,
              ChecksumIEEE (data ++ [(w.lastSequenceNumber + 1) % 2 ^ 64 % 256]),
              some true⟩ }, none) := by
  have hrot : ¬((lookupFile w.directory w.currentSegmentIndex).length +
      w.buffer.length ≥ w.maxSegmentSize) := by
    simp only [currentFile] at h
    omega
  simp [writeEntry, changeLogSegmentIfNeeded, writeEntryToBuffer, noFaults, Flush,
    currentFile, hrot]

end Wal

namespace Wal

/-- A run of fault-free calls assigns the consecutive sequence numbers
following the starting counter, and leaves the counter advanced by the
number of calls (stated below the `uint64` wrap, which a real log cannot
reach). -/
theorem runTrace_spec (ops : List WalOp) :
    ∀ w : WAL, w.lastSequenceNumber + ops.length < 2 ^ 64 →
      (runTrace ops w).2 = segRange (w.lastSequenceNumber + 1) ops.length ∧
        (runTrace ops w).1.lastSequenceNumber = w.lastSequenceNumber + ops.length := by
  induction ops with
  | nil =>
    intro w _
    simp [runTrace, segRange]
  | cons op rest ih =>
    intro w h
    rw [List.length_cons] at h
    have hstep : ∀ (d : List Nat) (cpf : Bool),
        ((writeEntry noFaults d cpf w).1).lastSequenceNumber =
          w.lastSequenceNumber + 1 := by
      intro d cpf
      rw [(writeEntry_noFaults_ok w d cpf).2, Nat.mod_eq_of_lt (by omega)]
    have key : ∀ (d : List Nat) (cpf : Bool),
        ((writeEntry noFaults d cpf w).1.lastSequenceNumber ::
            (runTrace rest (writeEntry noFaults d cpf w).1).2 =
          segRange (w.lastSequenceNumber + 1) (rest.length + 1)) ∧
          (runTrace rest (writeEntry noFaults d cpf w).1).1.lastSequenceNumber =
            w.lastSequenceNumber + (rest.length + 1) := by
      intro d cpf
      obtain ⟨ht, hl⟩ := ih (writeEntry noFaults d cpf w).1 (by rw [hstep d cpf]; omega)
      constructor
      · rw [hstep d cpf, ht, hstep d cpf, segRange]
      · rw [hl, hstep d cpf]
        omega
    cases op with
    | write d => simpa [runTrace, List.length_cons] using key d false
    | checkpoint d => simpa [runTrace, List.length_cons] using key d true

/-! ## Segment-lifecycle lemmas for rotation and retention -/

/-- Length of a contiguous index range. -/
theorem segRange_length (lo len : Nat) : (segRange lo len).length = len := by
  induction len generalizing lo with
  | zero => rfl
  | succ len ih => simp [segRange, ih]

/-- Membership in a contiguous index range. -/
theorem mem_segRange {x lo len : Nat} : x ∈ segRange lo len ↔ lo ≤ x ∧ x < lo + len := by
  induction len generalizing lo with
  | zero => simp [segRange]
  | succ len ih =>
    simp only [segRange, List.mem_cons, ih]
    omega

/-- A contiguous range extended on the right. -/
theorem segRange_concat (lo len : Nat) :
    segRange lo (len + 1) = segRange lo len ++ [lo + len] := by
  induction len generalizing lo with
  | zero => simp [segRange]
  | succ len ih =>
    have h2 := ih (lo + 1)
    have harith : lo + 1 + len = lo + (len + 1) := by omega
    calc segRange lo (len + 1 + 1) = lo :: segRange (lo + 1) (len + 1) := rfl
      _ = lo :: (segRange (lo + 1) len ++ [lo + 1 + len]) := by rw [h2]
      _ = segRange lo (len + 1) ++ [lo + (len + 1)] := by
          rw [harith, show segRange lo (len + 1) = lo :: segRange (lo + 1) len from rfl,
            List.cons_append]

/-- Overwriting an existing index leaves the name list unchanged. -/
theorem setFile_map_fst_mem (l : List (Nat × List Nat)) (i : Nat) (bs : List Nat)
    (h : i ∈ l.map Prod.fst) :
    (setFile l i bs).map Prod.fst = l.map Prod.fst := by
  induction l with
  | nil => simp at h
  | cons p rest ih =>
    by_cases hp : p.1 = i
    · simp [setFile, hp]
    · simp only [List.map_cons, List.mem_cons] at h
      rcases h with h | h
    
      · exact absurd h.symm hp
      · simp [setFile, hp, ih h]

/-- Creating a fresh index appends its name. -/
theorem setFile_map_fst_not_mem (l : List (Nat × List Nat)) (i : Nat) (bs : List Nat)
    (h : i ∉ l.map Prod.fst) :
    (setFile l i bs).map Prod.fst = l.map Prod.fst ++ [i] := by
  induction l with
  | nil => simp [setFile]
  | cons p rest ih =>
    simp only [List.map_cons, List.mem_cons] at h
    push_neg at h
    have hp : ¬(p.1 = i) := fun hc => h.1 hc.symm
    simp [setFile, hp, ih h.2]

/-- Removing the head index of the name list drops exactly it. -/
theorem removeSeg_map_fst (l : List (Nat × List Nat)) (lo : Nat) (xs : List Nat)
    (h : l.map Prod.fst = lo :: xs) : (removeSeg l lo).map Prod.fst = xs := by
  cases l with
  | nil => simp at h
  | cons p rest =>
    simp only [List.map_cons, List.cons.injEq] at h
    simp [removeSeg, h.1, h.2]

/-- The oldest-segment fold never goes below a lower bound it starts
at. -/
theorem foldl_oldest_stay (xs : List Nat) (lo : Nat) (h : ∀ x ∈ xs, lo ≤ x) :
    xs.foldl (fun oldestSegmentId segmentIdx =>
      if segmentIdx < oldestSegmentId then segmentIdx else oldestSegmentId) lo = lo := by
  induction xs with
  | nil => rfl
  | cons x rest ih =>
    have hx : ¬(x < lo) := by
      have := h x (by simp)
      omega
    simp only [List.foldl_cons, if_neg hx]
    exact ih fun y hy => h y (by simp [hy])

/-- On a nonempty contiguous index range below `math.MaxInt64`,
`findOldestSegmentFile` returns the lowest index. -/
theorem findOldest_segRange (lo len : Nat) (hlo : lo ≤ 2 ^ 63 - 1) :
    findOldestSegmentFile (segRange lo (len + 1)) = lo := by
  unfold findOldestSegmentFile
  rw [show segRange lo (len + 1) = lo :: segRange (lo + 1) len from rfl]
  simp only [List.foldl_cons]
  have hfirst : (if lo < 2 ^ 63 - 1 then lo else 2 ^ 63 - 1) = lo := by
    split <;> omega
  rw [hfirst]
  exact foldl_oldest_stay _ lo fun x hx => by
    have := mem_segRange.mp hx
    omega

/-- The index field after one rotation. -/
theorem changeLogSegment_idx (w : WAL) :
    (changeLogSegment w).currentSegmentIndex = (w.currentSegmentIndex + 1) % 2 ^ 64 := by
  simp only [changeLogSegment, deleteOldestSegment, Flush]
  (split <;> try split) <;> rfl

/-- The directory after one rotation: flush the buffer into the old
segment, delete the oldest file when the incremented index exceeds the
retention limit, then create the new empty segment. -/
theorem changeLogSegment_dir (w : WAL) :
    (changeLogSegment w).directory =
      setFile
        (if (w.currentSegmentIndex + 1) % 2 ^ 64 > w.maxSegmentsNumber then
           (if (Flush w).directory = [] then (Flush w).directory
            else removeSeg (Flush w).directory
              (findOldestSegmentFile ((Flush w).directory.map Prod.fst)))
         else (Flush w).directory)
        ((w.currentSegmentIndex + 1) % 2 ^ 64) [] := by
  simp only [changeLogSegment, deleteOldestSegment, Flush]
  (split <;> try split) <;> simp_all

/-- The rotation-lifecycle invariant: after `n` rotations of a fresh log,
the current segment index is `n` and the retained segment indices are
exactly the window of the last `min n K + 1` indices ending at `n`. -/
theorem iterRot_inv (M K : Nat) : ∀ n, n < 2 ^ 63 →
    (iterRot n (freshWAL M K)).currentSegmentIndex = n ∧
      (iterRot n (freshWAL M K)).directory.map Prod.fst =
        segRange (n - min n K) (min n K + 1) ∧
      (iterRot n (freshWAL M K)).maxSegmentsNumber = K := by
  intro n
  induction n with
  | zero =>
    intro _
    refine ⟨rfl, ?_, rfl⟩
    simp [iterRot, freshWAL, segRange]
  | succ n ih =>
    intro h
    obtain ⟨hidx, hdir, hK⟩ := ih (by omega)
    have hm : min n K ≤ n := Nat.min_le_left n K
    have hmem : (iterRot n (freshWAL M K)).currentSegmentIndex ∈
        (iterRot n (freshWAL M K)).directory.map Prod.fst := by
      rw [hidx, hdir]
      exact mem_segRange.mpr ⟨by omega, by omega⟩
    have hFdir : (Flush (iterRot n (freshWAL M K))).directory.map Prod.fst =
        segRange (n - min n K) (min n K + 1) := by
      show (setFile (iterRot n (freshWAL M K)).directory
        (iterRot n (freshWAL M K)).currentSegmentIndex _).map Prod.fst = _
      rw [setFile_map_fst_mem _ _ _ hmem, hdir]
    have hFne : (Flush (iterRot n (freshWAL M K))).directory ≠ [] := by
      intro hc
      have := congrArg (List.map Prod.fst) hc
      rw [hFdir] at this
      simp [show segRange (n - min n K) (min n K + 1) =
        (n - min n K) :: segRange (n - min n K + 1) (min n K) from rfl] at this
    have hmod : ((iterRot n (freshWAL M K)).currentSegmentIndex + 1) % 2 ^ 64 = n + 1 := by
      rw [hidx]
      exact Nat.mod_eq_of_lt (by omega)
    have hstep : iterRot (n + 1) (freshWAL M K) =
        changeLogSegment (iterRot n (freshWAL M K)) := rfl
    refine ⟨?_, ?_, ?_⟩
    · rw [hstep, changeLogSegment_idx, hmod]
    · rw [hstep, changeLogSegment_dir, hmod, hK]
      by_cases hdel : n + 1 > K
      · rw [if_pos hdel, if_neg hFne]
        have hKn : K ≤ n := by omega
        have hminn : min n K = K := by omega
        have hlo : n - min n K ≤ 2 ^ 63 - 1 := by omega
        rw [hFdir, findOldest_segRange _ _ hlo]
        have hrm : (removeSeg (Flush (iterRot n (freshWAL M K))).directory
            (n - min n K)).map Prod.fst = segRange (n - min n K + 1) (min n K) :=
          removeSeg_map_fst _ _ _ (by rw [hFdir]; rfl)
        have hnotmem : n + 1 ∉ (removeSeg (Flush (iterRot n (freshWAL M K))).directory
            (n - min n K)).map Prod.fst := by
          rw [hrm]
          intro hc
          have := mem_segRange.mp hc
          omega
        rw [setFile_map_fst_not_mem _ _ _ hnotmem, hrm, hminn]
        have hmin1 : min (n + 1) K = K := by omega
        rw [hmin1]
        have h1 : n + 1 - K = n - K + 1 := by omega
        rw [h1]
        have hc := segRange_concat (n - K + 1) K
        have h2 : n - K + 1 + K = n + 1 := by omega
        rw [h2] at hc
        rw [hc]
      · rw [if_neg hdel]
        have hminn : min n K = n := by omega
        have hmin1 : min (n + 1) K = n + 1 := by omega
        have hnotmem : n + 1 ∉ (Flush (iterRot n (freshWAL M K))).directory.map Prod.fst := by
          rw [hFdir]
          intro hc
          have := mem_segRange.mp hc
          omega
        rw [setFile_map_fst_not_mem _ _ _ hnotmem, hFdir, hminn, hmin1]
        have h0 : n - n = 0 := by omega
        have h0' : n + 1 - (n + 1) = 0 := by omega
        rw [h0, h0']
        have hc := segRange_concat 0 (n + 1)
        rw [hc]
        simp
    · rw [hstep]
      have := (changeLogSegment_pres (iterRot n (freshWAL M K))).2.2
      rw [this, hK]

end Wal

namespace Wal

/-- A failed single-segment scan propagates through `ReadAllFromCurrent`
together with the partial entry list. -/
theorem ReadAllFromCurrent_err (file : List Nat) (b : Bool) (es : List WAL_Entry)
    (cp : Nat) (err : WalErr)
    (h : readAllEntriesFromFile file b = (es, cp, some err)) :
    ReadAllFromCurrent file b = (es, some err) := by
  simp [ReadAllFromCurrent, h]

/-- When a segment's scan fails inside the multi-segment loop, the loop
returns only the entries accumulated from the previous segments — the
failing segment's partial entries are dropped. -/
theorem readIdxLoop_err (b : Bool) (start idx : Nat) (bytes : List Nat)
    (rest : List (Nat × List Nat)) (acc : List WAL_Entry) (prevCp : Nat)
    (es : List WAL_Entry) (cp : Nat) (err : WalErr) (hidx : ¬(idx < start))
    (hscan : readAllEntriesFromFile bytes b = (es, cp, some err)) :
    readIdxLoop b start ((idx, bytes) :: rest) acc prevCp = (acc, some err) := by
  simp [readIdxLoop, hidx, hscan]

/-! ## The claims -/

/-- Claim C1 (code bug): the spec says opening a log directory whose
current segment ends cleanly at a frame boundary recovers the last
sequence number by walking length fields and decoding the last frame, so
that a reopened log continues at `last + 1`.  The source's walk passes
`size` to `binary.Read` by value (`src/read.go:39`, missing `&`), so the
length field is never decoded: on the 20-byte segment produced by writing
one 3-byte payload and flushing, the walk strides 4 bytes at a time,
re-reads a 0-byte body at EOF, fails CRC verification, and `GetWAL`
returns an error instead of a log handle — while the walk the spec
describes (`lastEntryWalkSpec`, identical but reading into `&size`)
recovers the entry with sequence number 1 from the same bytes. -/
theorem claim_C1 :
    currentFile (Flush (writeEntry noFaults [97, 97, 97] false (freshWAL 100 5)).1) =
        frameBytes e1 ∧
      getLastSequenceNumber (frameBytes e1) = (0, some .crcMismatch) ∧
      GetWAL [(0, frameBytes e1)] 100 5 = (none, some .crcMismatch) ∧
      lastEntryWalkSpec (frameBytes e1) = (some e1, none) ∧
      e1.logSequenceNumber = 1 := by
  refine ⟨by decide, by decide, by decide, by decide, by decide⟩

/-- Claim C2 (code bug): with writes `A, B` and no checkpoint ever
written, the checkpoint-filtered read of the current segment is empty as
claimed, but the checkpoint-filtered multi-segment read
(`ReadAllFromIndex`, whose own doc comment also promises "if no
checkpoint is found, empty slice is returned") returns the full
unfiltered log `[A, B]`: the no-checkpoint guard of `ReadAllFromCurrent`
is missing from `ReadAllFromIndex`. -/
theorem claim_C2 :
    ReadAllFromCurrent (framesBytes [entA, entB]) true = ([], none) ∧
      ReadAllFromCurrent (framesBytes [entA, entB]) false = ([entA, entB], none) ∧
      ReadAllFromIndex dirNoCp 0 true = ([entA, entB], none) := by
  refine ⟨by decide, by decide, by decide⟩

/-- Claim C3 (code bug): the claim says multi-segment replay processes
segments in ascending numeric-suffix order.  `ReadAllFromIndex`
enumerates the files in `filepath.Glob` order, which is lexicographic on
names: with segments 2 and 10 it concatenates segment 10's records before
segment 2's, while the numeric enumeration the spec requires
(`ReadAllFromIndexNumeric`) yields them in chronological order. -/
theorem claim_C3 :
    ReadAllFromIndex dirLex 0 false = ([entB, entA], none) ∧
      ReadAllFromIndexNumeric dirLex 0 false = ([entA, entB], none) ∧
      entA ≠ entB := by
  refine ⟨by decide, by decide, by decide⟩

/-- Claim C4 (confirmed): along the rotation lifecycle of a fresh log,
the deletion guard of `changeLogSegment` (incremented index exceeding
`maxSegmentsNumber`) fires exactly when the number of retained segment
files exceeds `maxSegmentsNumber`; the retained indices always form the
contiguous window ending at the current index (so each deletion removed
the lowest index); and `deleteOldestSegment` is a no-op when no segment
files exist. -/
theorem claim_C4 (M K n : Nat) (h : n < 2 ^ 63) :
    ((iterRot n (freshWAL M K)).currentSegmentIndex + 1 > K ↔
        (iterRot n (freshWAL M K)).directory.length > K) ∧
      (iterRot n (freshWAL M K)).directory.map Prod.fst =
        segRange (n - min n K) (min n K + 1) ∧
      (∀ w : WAL, w.directory = [] → deleteOldestSegment w = w) := by
  obtain ⟨hidx, hdir, -⟩ := iterRot_inv M K n h
  have hlen : (iterRot n (freshWAL M K)).directory.length = min n K + 1 := by
    have hmap := congrArg List.length hdir
    rw [List.length_map, segRange_length] at hmap
    exact hmap
  refine ⟨?_, hdir, fun w hw => by simp [deleteOldestSegment, hw]⟩
  rw [hidx, hlen]
  omega

/-- Witness for C4 at three rotations with retention limit 2. -/
theorem claim_C4_witness :
    3 < 2 ^ 63 ∧
      (((iterRot 3 (freshWAL 10 2)).currentSegmentIndex + 1 > 2 ↔
          (iterRot 3 (freshWAL 10 2)).directory.length > 2) ∧
        (iterRot 3 (freshWAL 10 2)).directory.map Prod.fst =
          segRange (3 - min 3 2) (min 3 2 + 1) ∧
        (∀ w : WAL, w.directory = [] → deleteOldestSegment w = w)) :=
  ⟨by decide, claim_C4 10 2 3 (by decide)⟩

/-- Claim C5 (confirmed): with no faults, every `writeEntry` call
succeeds and advances the sequence counter by exactly one (modulo the
`uint64` width), so a run of write/checkpoint calls on a fresh log
assigns exactly the numbers `1, 2, ..., n` in order. -/
theorem claim_C5 (ops : List WalOp) (M K : Nat) (h : ops.length < 2 ^ 64) :
    (∀ (d : List Nat) (cpf : Bool) (w : WAL),
        (writeEntry noFaults d cpf w).2 = none ∧
          (writeEntry noFaults d cpf w).1.lastSequenceNumber =
            (w.lastSequenceNumber + 1) % 2 ^ 64) ∧
      (runTrace ops (freshWAL M K)).2 = segRange 1 ops.length ∧
      (runTrace ops (freshWAL M K)).1.lastSequenceNumber = ops.length := by
  have hspec := runTrace_spec ops (freshWAL M K) (by simpa [freshWAL] using h)
  refine ⟨fun d cpf w => writeEntry_noFaults_ok w d cpf, ?_, ?_⟩
  · simpa [freshWAL] using hspec.1
  · simpa [freshWAL] using hspec.2

/-- Witness for C5 on the call sequence write, checkpoint, write. -/
theorem claim_C5_witness :
    [WalOp.write [1], WalOp.checkpoint [2], WalOp.write [3]].length < 2 ^ 64 ∧
      (runTrace [WalOp.write [1], WalOp.checkpoint [2], WalOp.write [3]]
          (freshWAL 100 5)).2 =
        segRange 1 [WalOp.write [1], WalOp.checkpoint [2], WalOp.write [3]].length :=
  ⟨by decide, (claim_C5 [WalOp.write [1], WalOp.checkpoint [2], WalOp.write [3]] 100 5
    (by decide)).2.1⟩

/-- Claim C6 (confirmed): a written record's frame carries
`CRC = ChecksumIEEE(payload ++ [lsn % 256])` — the payload bytes plus
only the low-order byte of the 64-bit sequence number — for both plain
writes and checkpoints; `isValidCRC` recomputes exactly that byte range;
a decoded record whose stored checksum does not verify makes
`UnmarshalAndVerifyEntry` return the corruption error and no record; and
a record as written always decodes back and verifies. -/
theorem claim_C6 (w : WAL) (d bs : List Nat) (e : WAL_Entry)
    (h : (currentFile w).length + w.buffer.length < w.maxSegmentSize) :
    ((writeEntry noFaults d false w).1.buffer =
        w.buffer ++ frameBytes
          ⟨(w.lastSequenceNumber + 1) % 2 ^ 64, d,
            ChecksumIEEE (d ++ [(w.lastSequenceNumber + 1) % 2 ^ 64 % 256]), none⟩) ∧
      ((writeEntry noFaults d true w).1.buffer =
        frameBytes
          ⟨(w.lastSequenceNumber + 1) % 2 ^ 64, d,
            ChecksumIEEE (d ++ [(w.lastSequenceNumber + 1) % 2 ^ 64 % 256]),
            some true⟩) ∧
      (isValidCRC e = true ↔
        ChecksumIEEE (e.data ++ [e.logSequenceNumber % 256]) = e.crc) ∧
      (unmarshalEntry bs = some e → isValidCRC e = false →
        UnmarshalAndVerifyEntry bs = (none, some .crcMismatch)) ∧
      (GoodEntry e → UnmarshalAndVerifyEntry (marshalEntry e) = (some e, none)) := by
  refine ⟨?_, ?_, ?_, ?_, UnmarshalAndVerify_good e⟩
  · rw [writeEntry_write_noRot w d h]
  · rw [writeEntry_cp_noRot w d h]
  · simp [isValidCRC, beq_iff_eq]
  · intro hu hv
    simp [UnmarshalAndVerifyEntry, hu, hv]

/-- Witness for C6 on a fresh log and the record `A`. -/
theorem claim_C6_witness :
    ((currentFile (freshWAL 100 5)).length + (freshWAL 100 5).buffer.length <
        (freshWAL 100 5).maxSegmentSize) ∧
      (isValidCRC entA = true ↔
        ChecksumIEEE (entA.data ++ [entA.logSequenceNumber % 256]) = entA.crc) :=
  ⟨by decide, (claim_C6 (freshWAL 100 5) [9] (marshalEntry entA) entA (by decide)).2.2.1⟩

/-- Claim C7 (confirmed): a checkpoint-filtered single-segment scan
computes the fold that, on each checkpoint record, discards everything
accumulated and restarts from that checkpoint; consequently after
`write A; write B; checkpoint C; write D` (and the flush the spec
requires before reading the live segment), `ReadAllFromCurrent` with
`fromCheckpoint` returns exactly `[C, D]` in order. -/
theorem claim_C7 (es : List WAL_Entry) (h : ∀ e ∈ es, GoodEntry e) :
    (readAllEntriesFromFile (framesBytes es) true =
        ((scanEntries true [] 0 es).1, (scanEntries true [] 0 es).2, none)) ∧
      (∀ (acc : List WAL_Entry) (cp : Nat) (e : WAL_Entry) (rest : List WAL_Entry),
        e.isCheckpoint = some true →
          scanEntries true acc cp (e :: rest) =
            scanEntries true [e] e.logSequenceNumber rest) ∧
      ReadAllFromCurrent (currentFile (Flush w4)) true = ([entC, entD], none) := by
  refine ⟨readAllEntriesFromFile_frames true es h, ?_, by decide⟩
  intro acc cp e rest he
  rw [scanEntries, if_pos ⟨he, rfl⟩]

/-- Witness for C7 on the record list `A, B, C, D`. -/
theorem claim_C7_witness :
    (∀ e ∈ [entA, entB, entC, entD], GoodEntry e) ∧
      readAllEntriesFromFile (framesBytes [entA, entB, entC, entD]) true =
        ((scanEntries true [] 0 [entA, entB, entC, entD]).1,
          (scanEntries true [] 0 [entA, entB, entC, entD]).2, none) :=
  ⟨by decide, (claim_C7 [entA, entB, entC, entD] (by decide)).1⟩

/-- Claim C8 (confirmed): a successful checkpoint call (that needs no
rotation) first flushes every previously buffered byte onto the current
segment file — on return the file holds exactly the old contents plus the
old buffer — and leaves exactly the checkpoint record's frame (with
`IsCheckpoint = true`) in the in-memory buffer, not on disk. -/
theorem claim_C8 (w : WAL) (d : List Nat)
    (h : (currentFile w).length + w.buffer.length < w.maxSegmentSize) :
    (writeEntry noFaults d true w).2 = none ∧
      currentFile (writeEntry noFaults d true w).1 = currentFile w ++ w.buffer ∧
      (writeEntry noFaults d true w).1.buffer =
        frameBytes
          ⟨(w.lastSequenceNumber + 1) % 2 ^ 64, d,
            ChecksumIEEE (d ++ [(w.lastSequenceNumber + 1) % 2 ^ 64 % 256]),
            some true⟩ := by
  rw [writeEntry_cp_noRot w d h]
  refine ⟨rfl, ?_, rfl⟩
  simp [currentFile, lookupFile_setFile]

/-- Witness for C8 checkpointing payload 7 on a fresh log. -/
theorem claim_C8_witness :
    ((currentFile (freshWAL 100 5)).length + (freshWAL 100 5).buffer.length <
        (freshWAL 100 5).maxSegmentSize) ∧
      (writeEntry noFaults [7] true (freshWAL 100 5)).2 = none ∧
      currentFile (writeEntry noFaults [7] true (freshWAL 100 5)).1 =
        currentFile (freshWAL 100 5) ++ (freshWAL 100 5).buffer :=
  ⟨by decide, (claim_C8 (freshWAL 100 5) [7] (by decide)).1,
    (claim_C8 (freshWAL 100 5) [7] (by decide)).2.1⟩

end Wal

namespace Wal

/-- Claim C9 (confirmed): a failed call is not atomic with respect to the
sequence counter.  If the rotation check itself fails, the call returns
the error with the state — counter, buffer, files — fully unchanged; but
if the checkpoint's internal flush fails, or writing the frame into the
buffer fails, the call returns the error with `lastSequenceNumber`
already incremented and nothing framed, so the next successful write is
assigned `lastSequenceNumber + 2` and the number `lastSequenceNumber + 1`
never appears in any frame: a gap in on-disk sequence numbers. -/
theorem claim_C9 (w : WAL) (d d2 : List Nat) (cpf : Bool)
    (h : (currentFile w).length + w.buffer.length < w.maxSegmentSize)
    (hlsn : w.lastSequenceNumber + 2 < 2 ^ 64) :
    writeEntry ⟨true, false, false⟩ d cpf w = (w, some .statFail) ∧
      writeEntry ⟨false, true, false⟩ d true w =
        ({ w with lastSequenceNumber := w.lastSequenceNumber + 1 }, some .flushFail) ∧
      writeEntry ⟨false, false, true⟩ d false w =
        ({ w with lastSequenceNumber := w.lastSequenceNumber + 1 },
          some .bufWriteFail) ∧
      writeEntry noFaults d2 false (writeEntry ⟨false, false, true⟩ d false w).1 =
        ({ w with
            lastSequenceNumber := w.lastSequenceNumber + 2,
            buffer := w.buffer ++ frameBytes
              ⟨w.lastSequenceNumber + 2, d2,
                ChecksumIEEE (d2 ++ [(w.lastSequenceNumber + 2) % 256]), none⟩ },
          none) := by
  have hrot : ¬((lookupFile w.directory w.currentSegmentIndex).length +
      w.buffer.length ≥ w.maxSegmentSize) := by
    simp only [currentFile] at h
    omega
  have hm1 : (w.lastSequenceNumber + 1) % 2 ^ 64 = w.lastSequenceNumber + 1 :=
    Nat.mod_eq_of_lt (by omega)
  have hc : writeEntry ⟨false, false, true⟩ d false w =
      ({ w with lastSequenceNumber := w.lastSequenceNumber + 1 },
        some .bufWriteFail) := by
    simp [writeEntry, changeLogSegmentIfNeeded, writeEntryToBuffer, currentFile,
      hrot, hm1]
    all_goals omega
  refine ⟨?_, ?_, hc, ?_⟩
  · simp [writeEntry, changeLogSegmentIfNeeded]
  · simp [writeEntry, changeLogSegmentIfNeeded, currentFile, hrot, hm1]
    all_goals omega
  · rw [hc]
    have hm2 : (w.lastSequenceNumber + 1 + 1) % 2 ^ 64 = w.lastSequenceNumber + 2 :=
      Nat.mod_eq_of_lt (by omega)
    rw [writeEntry_write_noRot { w with lastSequenceNumber := w.lastSequenceNumber + 1 }
      d2 h, hm2]

/-- Witness for C9 on a fresh log. -/
theorem claim_C9_witness :
    ((currentFile (freshWAL 100 5)).length + (freshWAL 100 5).buffer.length <
        (freshWAL 100 5).maxSegmentSize) ∧
      ((freshWAL 100 5).lastSequenceNumber + 2 < 2 ^ 64) ∧
      writeEntry ⟨true, false, false⟩ [1] false (freshWAL 100 5) =
        (freshWAL 100 5, some .statFail) :=
  ⟨by decide, by decide,
    (claim_C9 (freshWAL 100 5) [1] [2] false (by decide) (by decide)).1⟩

/-- Claim C10 counterexample: in a directory whose segment 0 holds `A`
and whose segment 1 holds a good record `G` followed by a corrupt frame,
the scan of segment 1 decodes `G` before failing, yet
`ReadAllFromIndex 0` returns only `[A]` with the error — not the records
successfully decoded before the failure, as the claim requires. -/
theorem claim_C10_counterexample :
    readAllEntriesFromFile (framesBytes [entG, entBad]) false =
        ([entG], 0, some .crcMismatch) ∧
      ReadAllFromIndex dirPartial 0 false = ([entA], some .crcMismatch) ∧
      entG ∉ (ReadAllFromIndex dirPartial 0 false).1 := by
  refine ⟨by decide, by decide, by decide⟩

/-- Claim C10 as amended: when a scan fails mid-segment,
`ReadAllFromCurrent` returns the records decoded before the failure
together with the error; `ReadAllFromIndex` returns the records
accumulated from segments fully scanned before the failing one together
with the error, discarding the records decoded inside the failing
segment. -/
theorem claim_C10 :
    (∀ (file : List Nat) (b : Bool) (es : List WAL_Entry) (cp : Nat) (err : WalErr),
        readAllEntriesFromFile file b = (es, cp, some err) →
          ReadAllFromCurrent file b = (es, some err)) ∧
      (∀ (b : Bool) (start idx : Nat) (bytes : List Nat)
          (rest : List (Nat × List Nat)) (acc : List WAL_Entry) (prevCp : Nat)
          (es : List WAL_Entry) (cp : Nat) (err : WalErr), ¬(idx < start) →
          readAllEntriesFromFile bytes b = (es, cp, some err) →
            readIdxLoop b start ((idx, bytes) :: rest) acc prevCp =
              (acc, some err)) := by
  exact ⟨ReadAllFromCurrent_err, fun b start idx bytes rest acc prevCp es cp err h1 h2 =>
    readIdxLoop_err b start idx bytes rest acc prevCp es cp err h1 h2⟩

/-- Witness for C10 on the corrupt segment 1 of the counterexample
directory. -/
theorem claim_C10_witness :
    readAllEntriesFromFile (framesBytes [entG, entBad]) false =
        ([entG], 0, some .crcMismatch) ∧
      ReadAllFromCurrent (framesBytes [entG, entBad]) false =
        ([entG], some .crcMismatch) :=
  ⟨by decide, claim_C10.1 (framesBytes [entG, entBad]) false [entG] 0 .crcMismatch
    (by decide)⟩

end Wal
